import Mathlib

/-!
Verification development for a Go TCP full-duplex peer-to-peer chat
(two symmetric peers, `peerA/main.go` and `peerB/main.go`).

The Go source is shallowly embedded: each goroutine body becomes a Lean
function over explicit state, with the nondeterministic parts of the
environment (results of `net.Dial`, the contents of `acceptCh` at each
poll, `select` tie-breaks when several cases are ready, goroutine
interleavings) passed in as explicit oracles.  Durations are Go
`time.Duration` values in nanoseconds.
-/

namespace ChannelsChat

/-- Source constant `dialRetryEvery = 700 * time.Millisecond`, in nanoseconds. -/
def dialRetryEvery : Nat := 700 * 1000000

/-- Source constant `connWriteTimeout = 5 * time.Second`, in nanoseconds. -/
def connWriteTimeout : Nat := 5 * 1000000000

/-- An established TCP connection object (abstracted to an identifier). -/
structure GoConn where
  id : Nat
deriving DecidableEq

/-- A Go `net.Conn` interface value: `none` models the `nil` interface. -/
abbrev NetConn := Option GoConn

/-- The pair returned by `net.Dial`: a connection value and an error value. -/
structure DialResult where
  conn : NetConn
  err : Option String
deriving DecidableEq

/-- The pair returned by `net.Listener.Accept`. -/
structure AcceptResult where
  conn : NetConn
  err : Option String
deriving DecidableEq

/-- Embedding of `acceptOnce`: the value it places into `acceptCh`
(`none` when `Accept` errored and nothing is sent). -/
def acceptOnce (r : AcceptResult) : Option NetConn :=
  if r.err = none then some r.conn else none

/-- The `net` library contract for `Accept`: a nil error implies a non-nil
connection. -/
def acceptContract (r : AcceptResult) : Prop :=
  r.err = none → r.conn.isSome

/-- Environment of one `establishConn` run: for polling iteration `i`,
`slot i` is the content of `acceptCh` observed by the non-blocking
`select` (the Candidate Connection Slot), and `dial i` is the outcome the
network gives to `net.Dial` at that iteration. -/
structure ResolverEnv where
  slot : Nat → Option NetConn
  dial : Nat → DialResult

/-- Observable events of one `establishConn` run, indexed by iteration. -/
inductive REvent
  | tookInbound (i : Nat)
  | dialAttempt (i : Nat)
  | dialSuccess (i : Nat)
  | sleep (i : Nat) (d : Nat)
deriving DecidableEq

/-- Events through which `establishConn` returns a connection. -/
def isReturnEvent : REvent → Bool
  | .tookInbound _ => true
  | .dialSuccess _ => true
  | _ => false

/-- Embedding of the `for`/`select` loop body of `establishConn`, with
fuel bounding the number of iterations modelled (`none` means the loop is
still running after that many iterations).  Each iteration polls the slot
non-blockingly (`select` with `default`); if the slot holds a connection
it is returned at once, otherwise one dial is attempted; a failed dial
sleeps `dialRetryEvery` and the loop repeats. -/
def establishConnAux (env : ResolverEnv) : Nat → Nat → Option NetConn × List REvent
  | 0, _ => (none, [])
  | fuel + 1, i =>
    match env.slot i with
    | some c => (some c, [REvent.tookInbound i])
    | none =>
      let d := env.dial i
      if d.err = none then
        (some d.conn, [REvent.dialAttempt i, REvent.dialSuccess i])
      else
        let t := establishConnAux env fuel (i + 1)
        (t.1, REvent.dialAttempt i :: REvent.sleep i dialRetryEvery :: t.2)

/-- Embedding of `establishConn`, starting at iteration 0. -/
def establishConn (fuel : Nat) (env : ResolverEnv) : Option NetConn × List REvent :=
  establishConnAux env fuel 0

/-- The guard `conn == nil` in `main` after `establishConn` returns. -/
def mainConnFailed (c : NetConn) : Bool :=
  c.isNone

/-- Go `unicode.IsSpace`: the characters `strings.TrimSpace` strips. -/
def goIsSpace (c : Char) : Bool :=
  c = ' ' || c = '\t' || c = '\n' || c = '\x0b' || c = '\x0c' || c = '\r' ||
  c = '\x85' || c = '\xa0' || c = '\u1680' ||
  (0x2000 ≤ c.toNat && c.toNat ≤ 0x200a) ||
  c = '\u2028' || c = '\u2029' || c = '\u202f' || c = '\u205f' || c = '\u3000'

/-- Go `strings.TrimSpace` on a character list: drop leading and trailing
white space. -/
def trimList (l : List Char) : List Char :=
  ((l.dropWhile goIsSpace).reverse.dropWhile goIsSpace).reverse

/-- Go `strings.TrimSpace`. -/
def goTrimSpace (s : String) : String :=
  String.mk (trimList s.data)

/-- Embedding of the per-line body of `stdinReader`: the value it forwards
to the `outgoing` channel for one scanned line (`none` when the line is
empty after trimming and is discarded).  `tag` is the peer prefix, the
literal string PEER plus a colon and space in the source
(the peer A source sends its tag, the peer B source sends its own). -/
def stdinLineToOutgoing (tag : String) (raw : String) : Option String :=
  let line := goTrimSpace raw
  if line = "" then none else some (tag ++ line)

/-- Embedding of the `stdinReader` loop.  `doneAt k` tells whether the
`done` channel is closed when iteration `k` performs its non-blocking
`select` poll; `lines` is the remaining sequence of lines the scanner will
produce before end of input.  The result is the list of strings sent to
the `outgoing` channel, paired with whether the function ever raised the
Shutdown Signal (called `closeDone`); the body of `stdinReader` contains
no `closeDone` call, so that component is constant. -/
def stdinReaderRun (tag : String) (doneAt : Nat → Bool) : Nat → List String → List String × Bool
  | _, [] => ([], false)
  | k, raw :: rest =>
    if doneAt k then ([], false)
    else
      let line := goTrimSpace raw
      if line = "" then stdinReaderRun tag doneAt (k + 1) rest
      else
        let t := stdinReaderRun tag doneAt (k + 1) rest
        ((tag ++ line) :: t.1, t.2)

/-- The per-line forwarding behaviour of `stdinReader`, as a filter map:
trim, drop if empty, otherwise prefix with the peer tag. -/
def stdinFilter (tag : String) (lines : List String) : List String :=
  lines.filterMap (fun raw =>
    let line := goTrimSpace raw
    if line = "" then none else some (tag ++ line))

/-- Go `bufio.dropCR`: drop a terminal carriage return from scanned data. -/
def dropCR (l : List Char) : List Char :=
  if l.getLast? = some '\r' then l.dropLast else l

/-- Worker for `bufio.ScanLines` over the whole stream: `acc` holds the
characters of the current token in reverse.  A newline emits the
accumulated token (with a trailing carriage return dropped); end of data
emits a final token only when data remains. -/
def scanLinesAux : List Char → List Char → List (List Char)
  | acc, [] => if acc.isEmpty then [] else [dropCR acc.reverse]
  | acc, c :: rest =>
    if c = '\n' then dropCR acc.reverse :: scanLinesAux [] rest
    else scanLinesAux (c :: acc) rest

/-- The sequence of tokens a `bufio.Scanner` with `ScanLines` produces
from a completed input stream. -/
def scanLinesList (l : List Char) : List (List Char) :=
  scanLinesAux [] l

/-- Embedding of the per-line body of `connReader`: prefix the fixed
receive marker before forwarding to the `incoming` channel. -/
def connReaderRecv (s : String) : String :=
  "RECV -> " ++ s

/-- Embedding of `connReader` over a completed received byte stream: scan
it into lines and forward each, in arrival order, with the receive
marker. -/
def connReaderRun (stream : List Char) : List String :=
  (scanLinesList stream).map (fun l => connReaderRecv (String.mk l))

/-- The byte stream a lossless in-order transport delivers for a list of
written strings. -/
def concatStream (l : List String) : List Char :=
  (l.map String.data).flatten

/-- Outcome the environment assigns to the two fallible operations of one
`connWriter` iteration: the buffered `WriteString` and the `Flush`. -/
structure WriteEnv where
  writeErr : Option String
  flushErr : Option String
deriving DecidableEq

/-- Observable events of `connWriter`, in program order. -/
inductive WEvent
  | setDeadline (d : Nat)
  | wrote (s : String)
  | writeFailed
  | flushed
  | flushFailed
  | closedDone
deriving DecidableEq

/-- Embedding of the message arm of `connWriter`'s `select`: set the write
deadline to now plus `connWriteTimeout`, write the message plus a newline,
flush; on write or flush failure call `closeDone` and return.  The result
pairs the event list with whether the goroutine terminated. -/
def connWriterHandleMsg (now : Nat) (msg : String) (env : WriteEnv) : List WEvent × Bool :=
  match env.writeErr with
  | some _ => ([WEvent.setDeadline (now + connWriteTimeout), WEvent.writeFailed,
                WEvent.closedDone], true)
  | none =>
    match env.flushErr with
    | some _ => ([WEvent.setDeadline (now + connWriteTimeout), WEvent.wrote (msg ++ "\n"),
                  WEvent.flushFailed, WEvent.closedDone], true)
    | none => ([WEvent.setDeadline (now + connWriteTimeout), WEvent.wrote (msg ++ "\n"),
                WEvent.flushed], false)

/-- Which ready `select` arm the Go runtime picks when both the `done`
channel and the `outgoing` channel are ready at once. -/
inductive WChoice
  | takeDone
  | takeMsg
deriving DecidableEq

/-- Embedding of the `connWriter` loop.  `doneAt k` is whether `done` is
closed when iteration `k` evaluates its `select`; `sched k` resolves the
tie when a message is queued and `done` is ready together; `envs k` and
`times k` give iteration `k`'s I/O outcomes and clock.  `q` is the
content of the `outgoing` queue (no producer refills are modelled).
Result: the events, the lines never taken from the queue, and whether the
goroutine returned within the given fuel. -/
def connWriterRun (doneAt : Nat → Bool) (sched : Nat → WChoice) (envs : Nat → WriteEnv)
    (times : Nat → Nat) : Nat → Nat → List String → List WEvent × List String × Bool
  | 0, _, q => ([], q, false)
  | fuel + 1, k, q =>
    if doneAt k then
      match q with
      | [] => ([], [], true)
      | m :: rest =>
        match sched k with
        | .takeDone => ([], m :: rest, true)
        | .takeMsg =>
          let r := connWriterHandleMsg (times k) m (envs k)
          if r.2 then (r.1, rest, true)
          else
            let t := connWriterRun doneAt sched envs times fuel (k + 1) rest
            (r.1 ++ t.1, t.2.1, t.2.2)
    else
      match q with
      | [] => connWriterRun doneAt sched envs times fuel (k + 1) []
      | m :: rest =>
        let r := connWriterHandleMsg (times k) m (envs k)
        if r.2 then (r.1, rest, true)
        else
          let t := connWriterRun doneAt sched envs times fuel (k + 1) rest
          (r.1 ++ t.1, t.2.1, t.2.2)

/-- The strings successfully written by a run, in order. -/
def writtenOf : List WEvent → List String
  | [] => []
  | WEvent.wrote s :: t => s :: writtenOf t
  | _ :: t => writtenOf t

/-- A `WriteEnv` in which neither the write nor the flush fails. -/
def noFailEnv : WriteEnv :=
  ⟨none, none⟩

/-- Phases of one execution of `closeDone` by one goroutine: `start` is
before its `select` commits; `sawOpen` is after the `select` committed to
the `default` arm (the channel was observed open) but before `close(done)`
executes; `returned` is normal completion; `panicked` is the runtime
panic raised by closing an already-closed channel. -/
inductive CDPhase
  | start
  | sawOpen
  | returned
  | panicked
deriving DecidableEq

/-- One atomic step of `closeDone` for a goroutine in phase `ph` while the
shared `done` channel has closed-state `closed`: the `select` either takes
the receive arm (channel already closed, no-op) or commits to `default`;
the later `close(done)` succeeds only if the channel is still open. -/
def cdStep : CDPhase → Bool → CDPhase × Bool
  | .start, closed => if closed then (.returned, closed) else (.sawOpen, closed)
  | .sawOpen, closed => if closed then (.panicked, closed) else (.returned, true)
  | .returned, closed => (.returned, closed)
  | .panicked, closed => (.panicked, closed)

/-- Configuration of two goroutines concurrently executing `closeDone` on
the same `done` channel. -/
structure CDConf where
  closed : Bool
  a : CDPhase
  b : CDPhase
deriving DecidableEq

/-- Run one scheduled step: `true` steps goroutine A, `false` goroutine B. -/
def cdRunTask (c : CDConf) (isA : Bool) : CDConf :=
  if isA then
    let r := cdStep c.a c.closed
    ⟨r.2, r.1, c.b⟩
  else
    let r := cdStep c.b c.closed
    ⟨r.2, c.a, r.1⟩

/-- Run a whole interleaving of the two concurrent `closeDone` callers. -/
def cdRun : List Bool → CDConf → CDConf
  | [], c => c
  | s :: rest, c => cdRun rest (cdRunTask c s)

/-- Both goroutines about to call `closeDone` on the still-open channel. -/
def cdInit : CDConf :=
  ⟨false, .start, .start⟩

/-- The interleaving in which both callers evaluate their `select` before
either executes `close(done)`. -/
def cdRaceSchedule : List Bool :=
  [true, false, true, false]

/-- A fully serialised interleaving: A runs to completion, then B. -/
def cdSerialSchedule : List Bool :=
  [true, true, false, false]

/-- Which ready arm the Session Loop's `select` picks when both are ready. -/
inductive SChoice
  | msg
  | done
deriving DecidableEq

/-- Result of one iteration of `main`'s session loop. -/
inductive SessRes
  | printed (msg : String) (rest : List String)
  | terminated
  | blocked
deriving DecidableEq

/-- Embedding of one iteration of `main`'s `for`/`select` loop: print a
message from `incoming`, or exit when `done` is observed; when both arms
are ready the runtime's pick decides. -/
def sessionStep (incoming : List String) (done : Bool) (pick : SChoice) : SessRes :=
  match incoming, done with
  | [], false => .blocked
  | [], true => .terminated
  | m :: r, false => .printed m r
  | m :: r, true =>
    match pick with
    | .done => .terminated
    | .msg => .printed m r

/-- Control locations of the `stdinReader` goroutine: `checkDone` is its
top-of-loop non-blocking poll of `done`; `scanning` is blocked inside
`sc.Scan()`; `sending` is blocked sending a prepared line to the
`outgoing` channel; `exited` is after `return`. -/
inductive SRPhase
  | checkDone
  | scanning
  | sending (line : String)
  | exited
deriving DecidableEq

/-- One scheduled step of the `stdinReader` goroutine.  `done` is the
current state of the Shutdown Signal; `scan` is what `sc.Scan` can deliver
right now (`none`: no input available, the goroutine stays blocked;
`some none`: end of input; `some (some raw)`: a line); `sendReady` is
whether the `outgoing` channel can accept a value (it cannot when the
buffer is full and no consumer is left). -/
def srStep (tag : String) (ph : SRPhase) (done : Bool) (scan : Option (Option String))
    (sendReady : Bool) : SRPhase :=
  match ph with
  | .checkDone => if done then .exited else .scanning
  | .scanning =>
    match scan with
    | none => .scanning
    | some none => .exited
    | some (some raw) =>
      let line := goTrimSpace raw
      if line = "" then .checkDone else .sending (tag ++ line)
  | .sending line => if sendReady then .checkDone else .sending line
  | .exited => .exited

/-- The events of `n` consecutive failing resolver iterations starting at
iteration `k`: one dial attempt and one fixed-interval sleep each. -/
def retryEvents : Nat → Nat → List REvent
  | _, 0 => []
  | k, n + 1 =>
    REvent.dialAttempt k :: REvent.sleep k dialRetryEvery :: retryEvents (k + 1) n

/-- A resolver environment in which the slot stays empty and every dial is
refused. -/
def envAllFail : ResolverEnv :=
  ⟨fun _ => none, fun _ => ⟨none, some "connection refused"⟩⟩

/-- A resolver environment in which the first dial succeeds. -/
def envDialOk : ResolverEnv :=
  ⟨fun _ => none, fun _ => ⟨some ⟨5⟩, none⟩⟩

/-- A resolver environment in which the slot is filled at iteration 1 and
every dial is refused. -/
def envInbound : ResolverEnv :=
  ⟨fun i => if i = 1 then some (some ⟨7⟩) else none,
   fun _ => ⟨none, some "connection refused"⟩⟩

theorem estAux_skip (env : ResolverEnv) :
    ∀ (n fuel k : Nat),
      (∀ j, j < n → env.slot (k + j) = none ∧ (env.dial (k + j)).err ≠ none) →
      establishConnAux env (n + fuel) k =
        ((establishConnAux env fuel (k + n)).1,
          retryEvents k n ++ (establishConnAux env fuel (k + n)).2) := by
  intro n
  induction n with
  | zero => intro fuel k _; simp [retryEvents]
  | succ n ih =>
    intro fuel k h
    have h0 := h 0 (Nat.succ_pos n)
    simp only [Nat.add_zero] at h0
    have harith : n + 1 + fuel = (n + fuel) + 1 := by omega
    rw [harith]
    show establishConnAux env ((n + fuel) + 1) k = _
    rw [show establishConnAux env ((n + fuel) + 1) k =
        ((establishConnAux env (n + fuel) (k + 1)).1,
          REvent.dialAttempt k :: REvent.sleep k dialRetryEvery ::
            (establishConnAux env (n + fuel) (k + 1)).2) by
      simp only [establishConnAux, h0.1]
      rw [if_neg h0.2]]
    have hshift : ∀ j, j < n → env.slot (k + 1 + j) = none ∧ (env.dial (k + 1 + j)).err ≠ none := by
      intro j hj
      have := h (j + 1) (by omega)
      rwa [show k + (j + 1) = k + 1 + j by omega] at this
    rw [ih fuel (k + 1) hshift]
    simp [retryEvents, show k + 1 + n = k + (n + 1) by omega]

theorem retryEvents_mem (e : REvent) :
    ∀ (n k : Nat), e ∈ retryEvents k n →
      ∃ j, k ≤ j ∧ j < k + n ∧ (e = REvent.dialAttempt j ∨ e = REvent.sleep j dialRetryEvery) := by
  intro n
  induction n with
  | zero => intro k h; simp [retryEvents] at h
  | succ n ih =>
    intro k h
    simp only [retryEvents, List.mem_cons] at h
    rcases h with h | h | h
    · exact ⟨k, Nat.le_refl k, by omega, Or.inl h⟩
    · exact ⟨k, Nat.le_refl k, by omega, Or.inr h⟩
    · obtain ⟨j, hj1, hj2, hj3⟩ := ih (k + 1) h
      exact ⟨j, by omega, by omega, hj3⟩

theorem retryEvents_filter_return (n k : Nat) :
    (retryEvents k n).filter isReturnEvent = [] := by
  induction n generalizing k with
  | zero => simp [retryEvents]
  | succ n ih => simp [retryEvents, List.filter, isReturnEvent, ih]

theorem estAux_return_count (env : ResolverEnv) :
    ∀ (fuel k : Nat),
      ((establishConnAux env fuel k).2.filter isReturnEvent).length =
        if (establishConnAux env fuel k).1.isSome then 1 else 0 := by
  intro fuel
  induction fuel with
  | zero => intro k; simp [establishConnAux]
  | succ fuel ih =>
    intro k
    simp only [establishConnAux]
    cases hslot : env.slot k with
    | some c => simp [List.filter, isReturnEvent]
    | none =>
      by_cases herr : (env.dial k).err = none
      · simp [herr, List.filter, isReturnEvent]
      · simp only [herr, if_neg]
        simp [List.filter, isReturnEvent, ih (k + 1), herr]

theorem estAux_none_iff (env : ResolverEnv) :
    ∀ (fuel k : Nat),
      (establishConnAux env fuel k).1 = none ↔
        ∀ j, j < fuel → env.slot (k + j) = none ∧ (env.dial (k + j)).err ≠ none := by
  intro fuel
  induction fuel with
  | zero => intro k; simp [establishConnAux]
  | succ fuel ih =>
    intro k
    simp only [establishConnAux]
    cases hslot : env.slot k with
    | some c =>
      simp only [iff_false, ne_eq]
      constructor
      · intro h; exact absurd h (by simp)
      · intro h
        have := (h 0 (Nat.succ_pos fuel)).1
        rw [Nat.add_zero] at this
        rw [this] at hslot
        exact absurd hslot (by simp)
    | none =>
      by_cases herr : (env.dial k).err = none
      · simp only [herr, if_pos rfl]
        constructor
        · intro h; exact absurd h (by simp)
        · intro h
          exact absurd herr (by simpa using (h 0 (Nat.succ_pos fuel)).2)
      · rw [if_neg herr]
        constructor
        · intro h j hj
          rcases Nat.eq_zero_or_pos j with rfl | hpos
          · exact ⟨by simpa using hslot, by simpa using herr⟩
          · obtain ⟨j', rfl⟩ := Nat.exists_eq_add_of_lt hpos
            have := ((ih (k + 1)).mp h) j' (by omega)
            rwa [show k + 1 + j' = k + (0 + j' + 1) by omega] at this
        · intro h
          apply (ih (k + 1)).mpr
          intro j hj
          have := h (j + 1) (by omega)
          rwa [show k + (j + 1) = k + 1 + j by omega] at this

theorem estAux_conn_sound (env : ResolverEnv)
    (hdial : ∀ i, (env.dial i).err = none → (env.dial i).conn.isSome)
    (hslot : ∀ i c, env.slot i = some c →
      ∃ a : AcceptResult, acceptContract a ∧ acceptOnce a = some c) :
    ∀ (fuel k : Nat) (r : NetConn), (establishConnAux env fuel k).1 = some r → r.isSome := by
  intro fuel
  induction fuel with
  | zero => intro k r h; simp [establishConnAux] at h
  | succ fuel ih =>
    intro k r h
    simp only [establishConnAux] at h
    cases hs : env.slot k with
    | some c =>
      rw [hs] at h
      simp only [Option.some.injEq] at h
      subst h
      obtain ⟨a, hca, hco⟩ := hslot k _ hs
      unfold acceptOnce at hco
      by_cases herr : a.err = none
      · rw [if_pos herr] at hco
        simp only [Option.some.injEq] at hco
        subst hco
        exact hca herr
      · rw [if_neg herr] at hco; exact absurd hco (by simp)
    | none =>
      rw [hs] at h
      by_cases herr : (env.dial k).err = none
      · rw [if_pos herr] at h
        simp only [Option.some.injEq] at h
        subst h
        exact hdial k herr
      · rw [if_neg herr] at h
        exact ih (k + 1) r h

/-- C1: every execution of `establishConn` returns exactly one Connection
(exactly one return event when it resolves, none while it still loops);
and in any polling iteration reached with the inbound Candidate Connection
Slot already filled, the inbound connection is returned with no outbound
dial attempted at that iteration — inbound takes priority because the
`select` checks it first. -/
theorem c1_resolver_exactly_one (fuel : Nat) (env : ResolverEnv) :
    (((establishConn fuel env).2.filter isReturnEvent).length =
      if (establishConn fuel env).1.isSome then 1 else 0) ∧
    (∀ i c, i < fuel →
      (∀ j, j < i → env.slot j = none ∧ (env.dial j).err ≠ none) →
      env.slot i = some c →
      (establishConn fuel env).1 = some c ∧
      (establishConn fuel env).2.filter isReturnEvent = [REvent.tookInbound i] ∧
      REvent.dialAttempt i ∉ (establishConn fuel env).2) := by
  constructor
  · exact estAux_return_count env fuel 0
  · intro i c hi hreach hslot
    obtain ⟨s, rfl⟩ : ∃ s, fuel = i + (s + 1) := ⟨fuel - i - 1, by omega⟩
    have hskip := estAux_skip env i (s + 1) 0 (by intro j hj; simpa using hreach j hj)
    have hstep : establishConnAux env (s + 1) (0 + i) = (some c, [REvent.tookInbound i]) := by
      simp only [Nat.zero_add]
      simp [establishConnAux, hslot]
    unfold establishConn
    rw [hskip, hstep]
    refine ⟨rfl, ?_, ?_⟩
    · simp [List.filter_append, retryEvents_filter_return, List.filter, isReturnEvent]
    · intro hmem
      rcases List.mem_append.mp hmem with hmem | hmem
      · obtain ⟨j, hj1, hj2, hj3⟩ := retryEvents_mem _ i 0 hmem
        rcases hj3 with hj3 | hj3
        · injection hj3 with hij; omega
        · exact REvent.noConfusion hj3
      · simp at hmem

/-- Witness for C1 at a concrete environment: the slot is filled at
iteration 1, the single dial before it fails, and the inbound connection
is returned without a dial at iteration 1. -/
theorem c1_witness :
    (establishConn 3 envInbound).1 = some (some (GoConn.mk 7)) ∧
    (establishConn 3 envInbound).2.filter isReturnEvent = [REvent.tookInbound 1] ∧
    REvent.dialAttempt 1 ∉ (establishConn 3 envInbound).2 :=
  (c1_resolver_exactly_one 3 envInbound).2 1 (some (GoConn.mk 7)) (by decide)
    (by decide) (by decide)

/-- C6: `establishConn` keeps looping exactly while the slot stays empty
and every dial fails (it terminates iff the slot is filled or some dial
succeeds within the modelled iterations), and when every iteration fails
its trace is exactly one dial attempt followed by one sleep of the fixed
retry interval per iteration, with no attempt cap. -/
theorem c6_resolver_termination (fuel : Nat) (env : ResolverEnv) :
    ((establishConn fuel env).1 = none ↔
      ∀ i, i < fuel → env.slot i = none ∧ (env.dial i).err ≠ none) ∧
    ((∀ i, i < fuel → env.slot i = none ∧ (env.dial i).err ≠ none) →
      (establishConn fuel env).2 = retryEvents 0 fuel) := by
  constructor
  · have := estAux_none_iff env fuel 0
    simpa using this
  · intro h
    have hskip := estAux_skip env fuel 0 0 (by intro j hj; simpa using h j hj)
    rw [Nat.add_zero] at hskip
    unfold establishConn
    rw [hskip]
    simp [establishConnAux]

/-- Witness for C6 at a concrete always-failing environment: the resolver
is still looping after 2 iterations and its trace is the two dial
attempts with their fixed-interval sleeps. -/
theorem c6_witness :
    (establishConn 2 envAllFail).1 = none ∧
    (establishConn 2 envAllFail).2 = retryEvents 0 2 :=
  ⟨(c6_resolver_termination 2 envAllFail).1.mpr (by decide),
   (c6_resolver_termination 2 envAllFail).2 (by decide)⟩

/-- C10: under the `net` package contracts for `Dial` and `Accept` (a nil
error implies a non-nil connection, and the slot only ever holds what
`acceptOnce` forwarded), every connection `establishConn` returns is
non-nil, so the `conn == nil` failure branch in `main` is unreachable. -/
theorem c10_no_nil_connection (fuel : Nat) (env : ResolverEnv)
    (hdial : ∀ i, (env.dial i).err = none → (env.dial i).conn.isSome)
    (hslot : ∀ i c, env.slot i = some c →
      ∃ a : AcceptResult, acceptContract a ∧ acceptOnce a = some c) :
    ∀ r : NetConn, (establishConn fuel env).1 = some r →
      r.isSome ∧ mainConnFailed r = false := by
  intro r h
  have hs := estAux_conn_sound env hdial hslot fuel 0 r h
  refine ⟨hs, ?_⟩
  cases r with
  | none => simp at hs
  | some c => rfl

/-- Witness for C10 at a concrete environment whose first dial succeeds:
the returned connection is non-nil and `main`'s failure branch is not
taken. -/
theorem c10_witness :
    (some (GoConn.mk 5) : NetConn).isSome ∧
    mainConnFailed (some (GoConn.mk 5)) = false :=
  c10_no_nil_connection 1 envDialOk (fun _ _ => rfl)
    (fun _ _ h => Option.noConfusion h) (some (GoConn.mk 5)) rfl

/-- C2 is a code bug: `closeDone`'s check (the `select` committing to its
`default` arm because `done` was observed open) and its `close(done)` are
two separate steps, not an atomic check-and-set.  In the interleaving
where both concurrent raisers evaluate the `select` before either closes,
the second `close` is a `close of closed channel` runtime panic; only a
serialised execution is idempotent and safe. -/
theorem c2_closeDone_race_panics :
    cdRun cdRaceSchedule cdInit = ⟨true, CDPhase.returned, CDPhase.panicked⟩ ∧
    cdRun cdSerialSchedule cdInit = ⟨true, CDPhase.returned, CDPhase.returned⟩ := by
  decide

/-- A written line that contains no interior newline is terminated by
exactly one newline character. -/
theorem count_newline (msg : String) (h : '\n' ∉ msg.data) :
    ((msg ++ "\n").data.filter (fun c => c = '\n')).length = 1 := by
  have hd : (msg ++ "\n").data = msg.data ++ ['\n'] := by rw [String.data_append]
  rw [hd, List.filter_append]
  have h2 : msg.data.filter (fun c => decide (c = '\n')) = [] :=
    List.filter_eq_nil_iff.mpr (fun a ha hdec => h (by simpa [of_decide_eq_true hdec] using ha))
  simp [h2]

/-- C4: for every message `connWriter` takes from the Outgoing Queue, the
first thing it does is set the write deadline to the current time plus
`connWriteTimeout` (5 seconds), immediately before the single write of the
message followed by exactly one terminating newline; and it raises the
Shutdown Signal and terminates exactly when the write or the subsequent
flush fails. -/
theorem c4_connWriter_deadline (now : Nat) (msg : String) (env : WriteEnv) :
    ((connWriterHandleMsg now msg env).1.head? =
      some (WEvent.setDeadline (now + connWriteTimeout))) ∧
    (env.writeErr = none →
      (connWriterHandleMsg now msg env).1[1]? = some (WEvent.wrote (msg ++ "\n"))) ∧
    (env.writeErr ≠ none →
      (connWriterHandleMsg now msg env).1[1]? = some WEvent.writeFailed) ∧
    ('\n' ∉ msg.data → ((msg ++ "\n").data.filter (fun c => c = '\n')).length = 1) ∧
    ((connWriterHandleMsg now msg env).2 = true ↔
      (env.writeErr ≠ none ∨ env.flushErr ≠ none)) ∧
    (WEvent.closedDone ∈ (connWriterHandleMsg now msg env).1 ↔
      (env.writeErr ≠ none ∨ env.flushErr ≠ none)) := by
  obtain ⟨we, fe⟩ := env
  refine ⟨?_, ?_, ?_, fun h => count_newline msg h, ?_, ?_⟩ <;>
    cases we <;> cases fe <;> simp [connWriterHandleMsg]

/-- Witness for C4 at a concrete message and a failure-free environment:
the write at position 1 (right after the deadline) is the message plus its
single newline. -/
theorem c4_witness :
    (connWriterHandleMsg 0 "B: hi" noFailEnv).1[1]? = some (WEvent.wrote ("B: hi" ++ "\n")) ∧
    (("B: hi" ++ "\n").data.filter (fun c => c = '\n')).length = 1 :=
  ⟨(c4_connWriter_deadline 0 "B: hi" noFailEnv).2.1 rfl,
   (c4_connWriter_deadline 0 "B: hi" noFailEnv).2.2.2.1 (by decide)⟩

/-- C5: when `connWriter` observes the Shutdown Signal (its `select` takes
the `done` arm), it returns at once: no event happens, nothing further is
taken from or written for the Outgoing Queue, and every line still queued
at that moment is left unsent — including when a queued line and the
raised signal are ready simultaneously. -/
theorem c5_shutdown_no_drain (doneAt : Nat → Bool) (sched : Nat → WChoice)
    (envs : Nat → WriteEnv) (times : Nat → Nat) (fuel k : Nat) (q : List String)
    (hdone : doneAt k = true) (hpick : q = [] ∨ sched k = WChoice.takeDone) :
    connWriterRun doneAt sched envs times (fuel + 1) k q = ([], q, true) := by
  rcases hpick with rfl | hpick
  · simp [connWriterRun, hdone]
  · cases q with
    | nil => simp [connWriterRun, hdone]
    | cons m rest => simp [connWriterRun, hdone, hpick]

/-- Witness for C5: the signal is raised, one line is still queued, the
`select` observes `done`, and the pump exits leaving the line unsent. -/
theorem c5_witness :
    connWriterRun (fun _ => true) (fun _ => WChoice.takeDone) (fun _ => noFailEnv)
      (fun _ => 0) 1 0 ["B: hi"] = ([], ["B: hi"], true) :=
  c5_shutdown_no_drain (fun _ => true) (fun _ => WChoice.takeDone) (fun _ => noFailEnv)
    (fun _ => 0) 0 0 ["B: hi"] rfl (Or.inr rfl)

/-- C8: with the Shutdown Signal never raised, `stdinReader` forwards to
the Outgoing Queue exactly the trimmed non-empty input lines, each with
its peer tag, silently discarding lines that trim to empty; it never
raises the Shutdown Signal (for any input and signal history), and a
session whose signal is not raised does not terminate, so it can continue
after local input ends. -/
theorem c8_stdin_reader (tag : String) (lines : List String) (k : Nat) :
    stdinReaderRun tag (fun _ => false) k lines = (stdinFilter tag lines, false) ∧
    (∀ (doneAt : Nat → Bool) (j : Nat), (stdinReaderRun tag doneAt j lines).2 = false) ∧
    (∀ (inc : List String) (pick : SChoice), sessionStep inc false pick ≠ SessRes.terminated) := by
  refine ⟨?_, ?_, ?_⟩
  · induction lines generalizing k with
    | nil => simp [stdinReaderRun, stdinFilter]
    | cons raw rest ih =>
      simp only [stdinReaderRun, stdinFilter, List.filterMap_cons, Bool.false_eq_true, if_false]
      by_cases hline : goTrimSpace raw = ""
      · simpa [hline, stdinFilter] using ih (k + 1)
      · simp only [if_neg hline]
        rw [ih (k + 1)]
        simp [stdinFilter]
  · intro doneAt j
    induction lines generalizing j with
    | nil => simp [stdinReaderRun]
    | cons raw rest ih =>
      simp only [stdinReaderRun]
      by_cases hdone : doneAt j
      · simp [hdone]
      · simp only [hdone, if_false, Bool.false_eq_true]
        by_cases hline : goTrimSpace raw = "" <;> simp [hline, ih (j + 1)]
  · intro inc pick
    cases inc <;> cases pick <;> simp [sessionStep]

/-- Witness for C8 at a concrete input: a padded line is trimmed and
tagged, a blank line is discarded, input then ends, no shutdown is raised,
and the session loop with an unraised signal does not terminate. -/
theorem c8_witness :
    stdinReaderRun "A: " (fun _ => false) 0 ["  hello  ", "   ", "ok"] =
      (["A: hello", "A: ok"], false) ∧
    sessionStep [] false SChoice.msg ≠ SessRes.terminated := by
  constructor
  · rw [(c8_stdin_reader "A: " ["  hello  ", "   ", "ok"] 0).1]
    decide
  · exact (c8_stdin_reader "A: " [] 0).2.2 [] SChoice.msg

/-- C9 counterexample: the Shutdown Signal is raised, the local line
producer is scheduled while blocked inside its input read (and likewise
while blocked sending to a full queue), and it neither observes the
signal nor exits at that scheduling opportunity. -/
theorem c9_counterexample :
    srStep "B: " SRPhase.scanning true none false = SRPhase.scanning ∧
    srStep "B: " (SRPhase.sending "B: hi") true none false = SRPhase.sending "B: hi" ∧
    SRPhase.scanning ≠ SRPhase.exited := by
  decide

/-- C9 as amended: once the Shutdown Signal is raised, a component whose
wait actually includes the signal observes it and exits at that step —
the producer at its top-of-loop poll, the Session Loop with an empty
incoming queue, and the Outbound Pump with an empty outgoing queue — but
the local line producer polls the signal only at the top of its loop and
can remain blocked inside its input read without observing it. -/
theorem c9_shutdown_observation :
    (∀ (tag : String) (scan : Option (Option String)) (sendReady : Bool),
      srStep tag SRPhase.checkDone true scan sendReady = SRPhase.exited) ∧
    (∀ pick : SChoice, sessionStep [] true pick = SessRes.terminated) ∧
    (∀ (doneAt : Nat → Bool) (sched : Nat → WChoice) (envs : Nat → WriteEnv)
      (times : Nat → Nat) (fuel k : Nat), doneAt k = true →
      connWriterRun doneAt sched envs times (fuel + 1) k [] = ([], [], true)) ∧
    (srStep "B: " SRPhase.scanning true none false = SRPhase.scanning ∧
      srStep "B: " SRPhase.scanning true none false ≠ SRPhase.exited) := by
  refine ⟨fun tag scan sendReady => rfl, fun pick => rfl, ?_, by decide⟩
  intro doneAt sched envs times fuel k h
  simp [connWriterRun, h]

/-- Witness for the amended C9: a concrete pump run with the signal raised
and an empty queue exits at its next select. -/
theorem c9_witness :
    connWriterRun (fun _ => true) (fun _ => WChoice.takeMsg) (fun _ => noFailEnv)
      (fun _ => 0) 1 0 [] = ([], [], true) :=
  c9_shutdown_observation.2.2.1 (fun _ => true) (fun _ => WChoice.takeMsg)
    (fun _ => noFailEnv) (fun _ => 0) 0 0 rfl

theorem dropCR_eq_self (l : List Char) (h : l.getLast? ≠ some '\r') : dropCR l = l := by
  simp [dropCR, h]

theorem scanLinesAux_through (m : List Char) (hm : '\n' ∉ m) :
    ∀ (acc s : List Char),
      scanLinesAux acc (m ++ '\n' :: s) = dropCR (acc.reverse ++ m) :: scanLinesAux [] s := by
  induction m with
  | nil => intro acc s; simp [scanLinesAux]
  | cons c m ih =>
    intro acc s
    have hc : c ≠ '\n' := fun hcn => hm (hcn ▸ List.mem_cons_self c m)
    have hm' : '\n' ∉ m := fun hmem => hm (List.mem_cons_of_mem c hmem)
    simp only [List.cons_append, scanLinesAux, if_neg hc, List.append_eq]
    rw [ih hm' (c :: acc) s]
    simp

theorem scanLines_roundtrip (ms : List (List Char))
    (h : ∀ m ∈ ms, '\n' ∉ m ∧ m.getLast? ≠ some '\r') :
    scanLinesList ((ms.map (fun m => m ++ ['\n'])).flatten) = ms := by
  induction ms with
  | nil => simp [scanLinesList, scanLinesAux]
  | cons m rest ih =>
    have hm := h m (List.mem_cons_self m rest)
    have hrest : ∀ x ∈ rest, '\n' ∉ x ∧ x.getLast? ≠ some '\r' :=
      fun x hx => h x (List.mem_cons_of_mem m hx)
    simp only [List.map_cons, List.flatten_cons]
    rw [show (m ++ ['\n']) ++ (rest.map (fun x => x ++ ['\n'])).flatten =
        m ++ '\n' :: (rest.map (fun x => x ++ ['\n'])).flatten by simp]
    unfold scanLinesList
    rw [scanLinesAux_through m hm.1 [] _]
    rw [show scanLinesAux [] ((rest.map (fun x => x ++ ['\n'])).flatten) =
        scanLinesList ((rest.map (fun x => x ++ ['\n'])).flatten) from rfl]
    rw [ih hrest]
    simp [dropCR_eq_self m hm.2]

theorem writtenOf_append (a b : List WEvent) : writtenOf (a ++ b) = writtenOf a ++ writtenOf b := by
  induction a with
  | nil => simp [writtenOf]
  | cons e t ih => cases e <;> simp [writtenOf, ih]

theorem connWriterRun_empty (sched : Nat → WChoice) (envs : Nat → WriteEnv)
    (times : Nat → Nat) :
    ∀ (fuel k : Nat),
      connWriterRun (fun _ => false) sched envs times fuel k [] = ([], [], false) := by
  intro fuel
  induction fuel with
  | zero => intro k; rfl
  | succ fuel ih => intro k; simpa [connWriterRun] using ih (k + 1)

theorem connWriterRun_sendAll (sched : Nat → WChoice) (times : Nat → Nat) :
    ∀ (msgs : List String) (fuel k : Nat), msgs.length ≤ fuel →
      writtenOf (connWriterRun (fun _ => false) sched (fun _ => noFailEnv)
          times fuel k msgs).1 = msgs.map (fun m => m ++ "\n") ∧
      (connWriterRun (fun _ => false) sched (fun _ => noFailEnv)
          times fuel k msgs).2.1 = [] := by
  intro msgs
  induction msgs with
  | nil =>
    intro fuel k _
    rw [connWriterRun_empty]
    simp [writtenOf]
  | cons m rest ih =>
    intro fuel k hfuel
    obtain ⟨fuel', rfl⟩ : ∃ f, fuel = f + 1 := by
      cases fuel with
      | zero => simp at hfuel
      | succ f => exact ⟨f, rfl⟩
    have hlen : rest.length ≤ fuel' := by simp at hfuel; omega
    have hrec := ih fuel' (k + 1) hlen
    have hstep : connWriterRun (fun _ => false) sched (fun _ => noFailEnv) times
        (fuel' + 1) k (m :: rest) =
        ([WEvent.setDeadline (times k + connWriteTimeout), WEvent.wrote (m ++ "\n"),
            WEvent.flushed] ++
          (connWriterRun (fun _ => false) sched (fun _ => noFailEnv) times fuel' (k + 1) rest).1,
         (connWriterRun (fun _ => false) sched (fun _ => noFailEnv) times fuel' (k + 1) rest).2.1,
         (connWriterRun (fun _ => false) sched (fun _ => noFailEnv) times fuel' (k + 1) rest).2.2) := by
      simp [connWriterRun, connWriterHandleMsg, noFailEnv]
    rw [hstep]
    constructor
    · rw [writtenOf_append]
      simp only [writtenOf]
      rw [hrec.1]
      simp
    · exact hrec.2

/-- C7: pushing any sequence of lines (each newline-free and not ending in
a carriage return) through the Outbound Pump with no failure and no
shutdown writes exactly those lines, each with its terminating newline, in
queue order, emptying the queue; and the Inbound Pump, reading the
lossless in-order concatenation of those writes, delivers to the Incoming
Queue exactly the same lines in the same relative order, each with the
receive marker. -/
theorem c7_fifo_preservation (msgs : List String) (sched : Nat → WChoice)
    (times : Nat → Nat) (fuel k : Nat) (hfuel : msgs.length ≤ fuel)
    (hnl : ∀ m ∈ msgs, '\n' ∉ m.data)
    (hcr : ∀ m ∈ msgs, m.data.getLast? ≠ some '\r') :
    writtenOf (connWriterRun (fun _ => false) sched (fun _ => noFailEnv)
        times fuel k msgs).1 = msgs.map (fun m => m ++ "\n") ∧
    (connWriterRun (fun _ => false) sched (fun _ => noFailEnv)
        times fuel k msgs).2.1 = [] ∧
    connReaderRun (concatStream (writtenOf (connWriterRun (fun _ => false) sched
        (fun _ => noFailEnv) times fuel k msgs).1)) =
      msgs.map (fun m => connReaderRecv m) := by
  obtain ⟨hw, hq⟩ := connWriterRun_sendAll sched times msgs fuel k hfuel
  refine ⟨hw, hq, ?_⟩
  rw [hw]
  have hstream : concatStream (msgs.map (fun m => m ++ "\n")) =
      ((msgs.map String.data).map (fun m => m ++ ['\n'])).flatten := by
    unfold concatStream
    rw [List.map_map, List.map_map]
    congr 1
  rw [hstream]
  unfold connReaderRun
  rw [scanLines_roundtrip (msgs.map String.data) ?hside]
  case hside =>
    intro d hd
    obtain ⟨m, hm, rfl⟩ := List.mem_map.mp hd
    exact ⟨hnl m hm, hcr m hm⟩
  rw [List.map_map]
  exact rfl

/-- Witness for C7 at a concrete two-line queue: both lines are written in
order with their newlines and arrive at the Incoming Queue in the same
order with the receive marker. -/
theorem c7_witness :
    writtenOf (connWriterRun (fun _ => false) (fun _ => WChoice.takeMsg)
        (fun _ => noFailEnv) (fun _ => 0) 2 0 ["A: hello", "A: hi"]).1 =
      ["A: hello" ++ "\n", "A: hi" ++ "\n"] ∧
    connReaderRun (concatStream (writtenOf (connWriterRun (fun _ => false)
        (fun _ => WChoice.takeMsg) (fun _ => noFailEnv) (fun _ => 0) 2 0
        ["A: hello", "A: hi"]).1)) =
      [connReaderRecv "A: hello", connReaderRecv "A: hi"] := by
  have h := c7_fifo_preservation ["A: hello", "A: hi"] (fun _ => WChoice.takeMsg)
    (fun _ => 0) 2 0 (by decide) (by decide) (by decide)
  exact ⟨h.1, h.2.2⟩

theorem head_dropWhile_not (p : Char → Bool) :
    ∀ (l : List Char) (c : Char), (l.dropWhile p).head? = some c → p c = false := by
  intro l
  induction l with
  | nil => intro c h; simp [List.dropWhile] at h
  | cons a t ih =>
    intro c h
    by_cases hp : p a
    · rw [List.dropWhile_cons_of_pos hp] at h
      exact ih c h
    · rw [List.dropWhile_cons_of_neg hp] at h
      simp only [List.head?_cons, Option.some.injEq] at h
      rw [← h]
      exact Bool.eq_false_iff.mpr hp

theorem trim_fix_last (l : List Char) (h : trimList l = l) :
    ∀ c, l.getLast? = some c → goIsSpace c = false := by
  have h2 : (l.dropWhile goIsSpace).reverse.dropWhile goIsSpace = l.reverse := by
    have := congrArg List.reverse h
    simpa [trimList] using this
  intro c hc
  have hrev : l.reverse.head? = some c := by rw [List.head?_reverse]; exact hc
  rw [← h2] at hrev
  exact head_dropWhile_not goIsSpace _ c hrev

/-- C3: a line `L` that is non-empty and already whitespace-trimmed is
forwarded by peer A's `stdinReader` as the tag plus `L`; `connWriter`
sends it with its newline; and scanning the received bytes, peer B's
`connReader` delivers to its Incoming Queue exactly the receive marker
plus tag plus `L`, the payload otherwise preserved. -/
theorem c3_message_roundtrip (L : String) (h1 : goTrimSpace L = L) (h2 : L ≠ "")
    (h3 : '\n' ∉ L.data) :
    stdinLineToOutgoing "A: " L = some ("A: " ++ L) ∧
    connReaderRun ((("A: " ++ L) ++ "\n").data) = ["RECV -> A: " ++ L] := by
  have hdata : L.data ≠ [] := by
    intro hd
    apply h2
    cases L with
    | mk d => simp only at hd; rw [hd]
  have htrim : trimList L.data = L.data := congrArg String.data h1
  have hlast : L.data.getLast? ≠ some '\r' := by
    intro hr
    have := trim_fix_last L.data htrim '\r' hr
    simp [goIsSpace] at this
  constructor
  · simp [stdinLineToOutgoing, h1, h2]
  · have hd1 : (("A: " ++ L) ++ "\n").data = ("A: " ++ L).data ++ '\n' :: [] := by
      rw [String.data_append]
    have hnl2 : '\n' ∉ ("A: " ++ L).data := by
      rw [String.data_append]
      intro hmem
      rcases List.mem_append.mp hmem with hmem | hmem
      · simp at hmem
      · exact h3 hmem
    have hlast2 : ("A: " ++ L).data.getLast? ≠ some '\r' := by
      rw [String.data_append, List.getLast?_append_of_ne_nil _ hdata]
      exact hlast
    unfold connReaderRun scanLinesList
    rw [hd1, scanLinesAux_through _ hnl2 [] []]
    simp only [List.reverse_nil, List.nil_append, scanLinesAux, List.isEmpty_nil, if_true]
    rw [dropCR_eq_self _ hlast2]
    simp only [List.map_cons, List.map_nil]
    congr 1

/-- Witness for C3 at the spec's example line: typing `hello` at peer A
yields `RECV -> A: hello` in peer B's Incoming Queue. -/
theorem c3_witness :
    stdinLineToOutgoing "A: " "hello" = some ("A: " ++ "hello") ∧
    connReaderRun ((("A: " ++ "hello") ++ "\n").data) = ["RECV -> A: " ++ "hello"] :=
  c3_message_roundtrip "hello" (by decide) (by decide) (by decide)

end ChannelsChat
